import Mathlib

/-!
Shallow embedding of the traceability tooling of the IEEE_1588_2019 repository.

Embedded source files:
* `scripts/generators/spec_parser.py` — identifier grammar (the regexes
  `ID_PATTERN`, `HEADING_DEF_PATTERN`, `REF_PATTERN`), per-file scanning
  (`parse_file`), and the de-duplication loop of `main`.
* `scripts/generate-traceability-report.py` — result parsing
  (`parse_ctest_results` over the XML / legacy-line / block text formats),
  test-to-requirement linking (`link_tests_to_requirements`) and the
  `Requirement.coverage` property.

Modelling conventions:
* Text files are modelled as their list of lines (Python `str.splitlines`);
  where a regex is applied with `re.MULTILINE` the line structure carries
  the `^`/`\n` anchors.  For the legacy line format, which is found with
  `finditer` over the whole content, the lines are re-joined with `\n`.
* The Python regexes are implemented as character-level scanners.  For each
  of them the greedy sub-matches (`\s+`, `\d+`, `\S+`, `\.+`) are followed
  by a character the class cannot match, so regex backtracking inside them
  can never succeed where the greedy take fails and the deterministic
  scanner is equivalent; backtracking that can actually occur (the optional
  `([A-Z]{4}-)?` group and the trailing `\b` of the identifier grammar) is
  implemented explicitly.
* Python `float` arithmetic in `Requirement.coverage` is modelled in `ℚ`.
* Python sets are modelled as `Finset String`; the code only uses
  order-independent set operations (membership, comprehension counts, add).
-/

namespace PTP

/-- Python `\s` on ASCII input: space, tab, newline, CR, form feed, vertical tab. -/
def pyIsSpace (c : Char) : Bool :=
  c == ' ' || c == '\t' || c == '\n' || c == '\r' || c == '\x0c' || c == '\x0b'

def pyIsUpper (c : Char) : Bool := 'A' ≤ c && c ≤ 'Z'

def pyIsLower (c : Char) : Bool := 'a' ≤ c && c ≤ 'z'

def pyIsDigit (c : Char) : Bool := '0' ≤ c && c ≤ '9'

/-- Python `\w` on ASCII input. -/
def pyIsWord (c : Char) : Bool := pyIsUpper c || pyIsLower c || pyIsDigit c || c == '_'

/-- The character class `[A-Z0-9]` of the identifier grammar. -/
def isIdHead (c : Char) : Bool := pyIsUpper c || pyIsDigit c

/-- The character class `[A-Z0-9\-]` of the identifier grammar. -/
def isIdBody (c : Char) : Bool := isIdHead c || c == '-'

/-- Match a literal character sequence at the start of the input; returns the rest. -/
def dropLit? : List Char → List Char → Option (List Char)
  | [], cs => some cs
  | _ :: _, [] => none
  | p :: ps, c :: cs => if p = c then dropLit? ps cs else none

/-- Try a list of literal alternatives in order (regex alternation order). -/
def tryAlts : List (List Char) → List Char → Option (List Char × List Char)
  | [], _ => none
  | p :: ps, cs =>
    match dropLit? p cs with
    | some r => some (p, r)
    | none => tryAlts ps cs

/-- Greedy `p+`: at least one character of the class, maximal run. -/
def take1? (p : Char → Bool) (cs : List Char) : Option (List Char × List Char) :=
  let run := cs.takeWhile p
  if run.isEmpty then none else some (run, cs.dropWhile p)

/-- Regex word boundary `\b` between a previous character and the next one
(`none` = end of input). -/
def wordBoundary (prev : Char) (next : Option Char) : Bool :=
  match next with
  | none => pyIsWord prev
  | some n => pyIsWord prev != pyIsWord n

/-- Backtracking for `[A-Z0-9\-]*\b`: `run` is the maximal `[A-Z0-9\-]` run after the
mandatory `[A-Z0-9]` character `base`, `rest0` what follows it.  Try keeping
`k = run.length, …, 0` characters (regex greediness) until the boundary holds. -/
def idBodyTake (base : Char) (run rest0 : List Char) : Nat → Option (List Char × List Char)
  | 0 =>
    let next := match run with
      | [] => rest0.head?
      | c :: _ => some c
    if wordBoundary base next then some ([], run ++ rest0) else none
  | k + 1 =>
    let prev := (run.take (k + 1)).getLastD base
    let next := if k + 1 < run.length then run.get? (k + 1) else rest0.head?
    if wordBoundary prev next then some (run.take (k + 1), run.drop (k + 1) ++ rest0)
    else idBodyTake base run rest0 k

/-- `[A-Z0-9][A-Z0-9\-]*\b` at the start of the input. -/
def idCoreAt (cs : List Char) : Option (List Char × List Char) :=
  match cs with
  | [] => none
  | c :: rest =>
    if isIdHead c then
      match idBodyTake c (rest.takeWhile isIdBody) (rest.dropWhile isIdBody)
          (rest.takeWhile isIdBody).length with
      | some (body, rest') => some (c :: body, rest')
      | none => none
    else none

/-- The optional group `([A-Z]{4}-)?`, greedy attempt (4 uppercase letters and a dash). -/
def grp4At (cs : List Char) : Option (List Char × List Char) :=
  match cs with
  | a :: b :: c :: d :: '-' :: rest =>
    if pyIsUpper a && pyIsUpper b && pyIsUpper c && pyIsUpper d then
      some ([a, b, c, d, '-'], rest)
    else none
  | _ => none

/-- The leading alternation of the identifier grammar, in the regex's order. -/
def idLeadAlts : List (List Char) :=
  [['S','t','R'], ['R','E','Q'], ['A','R','C'], ['A','D','R'], ['Q','A'], ['T','E','S','T']]

/-- Match the identifier grammar
`(StR|REQ|ARC|ADR|QA|TEST)-([A-Z]{4}-)?[A-Z0-9][A-Z0-9\-]*\b`
at the start of the input, with the regex's backtracking over the optional
4-letter group.  Returns the matched identifier and the remaining input. -/
def idTokenAt (cs : List Char) : Option (String × List Char) :=
  match tryAlts idLeadAlts cs with
  | none => none
  | some (pre, r1) =>
    match r1 with
    | '-' :: r2 =>
      let withGrp : Option (String × List Char) :=
        match grp4At r2 with
        | some (g, r3) =>
          match idCoreAt r3 with
          | some (core, r4) => some (String.mk (pre ++ '-' :: (g ++ core)), r4)
          | none => none
        | none => none
      match withGrp with
      | some res => some res
      | none =>
        match idCoreAt r2 with
        | some (core, r4) => some (String.mk (pre ++ '-' :: core), r4)
        | none => none
    | _ => none

/-- `HEADING_DEF_PATTERN.match`: `^\s{0,3}#{1,6}\s+(id)\b`; returns the captured id.
A run of more than 3 leading whitespace or more than 6 `#` can never match
(backtracking the bounded repetitions still meets the wrong next character). -/
def headingMatch (line : String) : Option String :=
  let cs := line.toList
  if (cs.takeWhile pyIsSpace).length > 3 then none
  else
    let r1 := cs.dropWhile pyIsSpace
    let hs := (r1.takeWhile (· == '#')).length
    if hs < 1 || hs > 6 then none
    else
      let r2 := r1.dropWhile (· == '#')
      if (r2.takeWhile pyIsSpace).isEmpty then none
      else
        match idTokenAt (r2.dropWhile pyIsSpace) with
        | some (id, _) => some id
        | none => none

/-- `REF_PATTERN.findall`: scan left to right; the leading `\b` requires the previous
character to be a non-word character (or the start of the string); matches are
non-overlapping (scanning resumes at the end of each match).  `fuel` bounds the
recursion (initialised to length + 1, enough since every step consumes input). -/
def refFindAllAux : Nat → List Char → Bool → List String
  | 0, _, _ => []
  | _ + 1, [], _ => []
  | fuel + 1, c :: rest, prevOk =>
    if prevOk then
      match idTokenAt (c :: rest) with
      | some (s, rest') =>
        s :: refFindAllAux fuel rest' (!pyIsWord (s.toList.getLastD 'A'))
      | none => refFindAllAux fuel rest (!pyIsWord c)
    else refFindAllAux fuel rest (!pyIsWord c)

def refFindAll (cs : List Char) : List String :=
  refFindAllAux (cs.length + 1) cs true

/-- Python `str.strip(chars)`: remove leading and trailing characters of the set. -/
def pyStripChars (s : String) (bad : List Char) : String :=
  String.mk (((s.toList.dropWhile (bad.contains ·)).reverse.dropWhile
    (bad.contains ·)).reverse)

def wsSet : List Char := [' ', '\t', '\n', '\r', '\x0c', '\x0b']

/-- Python `str.strip()` (whitespace strip). -/
def pyStrip (s : String) : String := pyStripChars s wsSet

/-- Python `s.split(sub, 1)[1]`: the part after the first occurrence of `sub`
(`""` when `sub` does not occur; in `parse_file` it always occurs, the id was
found in the line by `REF_PATTERN`). -/
def afterFirstAux (sub : List Char) : Nat → List Char → List Char
  | 0, _ => []
  | _ + 1, [] => []
  | fuel + 1, c :: rest =>
    match dropLit? sub (c :: rest) with
    | some r => r
    | none => afterFirstAux sub fuel rest

def afterFirst (s sub : String) : String :=
  match dropLit? sub.toList s.toList with
  | some r => String.mk r
  | none => String.mk (afterFirstAux sub.toList s.toList.length s.toList.tail)

/-- One emitted item of `parse_file` / `build_item`.  The `path`, `references` and
`hash` fields of the Python dict are omitted: no claim mentions them and they are
computed independently of the classification logic. -/
structure Item where
  id : String
  title : String
  sourceType : String
deriving DecidableEq, Repr

def titleStripSet : List Char := [' ', '-', ':', ',']

/-- Body of the `for idx, id_ in enumerate(ids_in_line)` loop of `parse_file`:
skip the front-matter primary id, skip ids already emitted for this file,
classify heading-first-token occurrences as definitions, derive the title. -/
def addId (primary : Option String) (stem : String) (lineCore : String)
    (headingId : Option String) (items : List Item) (idx : Nat) (id_ : String) :
    List Item :=
  if primary = some id_ then items
  else if items.any (fun i => i.id == id_) then items
  else
    let isDef := headingId = some id_ ∧ idx = 0
    let title :=
      if idx = 0 then
        let r := pyStripChars (afterFirst lineCore id_) titleStripSet
        if r = "" then stem else r
      else stem
    items ++ [⟨id_, title, if isDef then "definition" else "reference"⟩]

/-- One line of the body loop of `parse_file` (the `strip('\n')` of the source is a
no-op on split lines).  A line yields items only when, after stripping `'# '`
characters and whitespace, it starts with an identifier (`ID_PATTERN.match`). -/
def processLine (primary : Option String) (stem : String) (items : List Item)
    (line : String) : List Item :=
  let headingId := headingMatch line
  let lineCore := pyStrip (pyStripChars line ['#', ' '])
  if (idTokenAt lineCore.toList).isSome then
    (refFindAll lineCore.toList).enum.foldl
      (fun acc p => addId primary stem lineCore headingId acc p.1 p.2) items
  else items

/-- `parse_file`.  `primary` is `fm.get('id')` (with `none` for a missing or empty
field, both falsy in Python), `fmTitle` is `fm.get('title')` likewise, `stem` the
file's stem, `lines` the file's lines (front matter included, as in
`text.splitlines()`; front-matter lines never start with an identifier). -/
def parse_file (primary fmTitle : Option String) (stem : String)
    (lines : List String) : List Item :=
  let init : List Item :=
    match primary with
    | some pid => [⟨pid, fmTitle.getD stem, "definition"⟩]
    | none => []
  lines.foldl (processLine primary stem) init

/-- An element of `all_items` as seen by the de-duplication loop of `main`:
only the id and the `sourceType` field matter there.  Items appended for test
sources have no `sourceType` key (`item.get('sourceType')` is `None`), modelled
as `none`. -/
structure SpecItem where
  id : String
  sourceType : Option String
deriving DecidableEq, Repr

/-- State of the de-duplication loop: the `seen` dict's keys, the `dedup` list, and
the `duplicate_definitions` dict as an insertion-ordered association list. -/
structure DedupState where
  seen : List String
  dedup : List SpecItem
  dups : List (String × Nat)
deriving DecidableEq, Repr

/-- `duplicate_definitions[iid] = duplicate_definitions.get(iid, 1) + 1` on an
insertion-ordered association list. -/
def bumpDup : List (String × Nat) → String → List (String × Nat)
  | [], iid => [(iid, 2)]
  | (k, n) :: rest, iid =>
    if k = iid then (k, n + 1) :: rest else (k, n) :: bumpDup rest iid

/-- One iteration of the de-duplication loop of `main` (lines 194-204). -/
def dedupStep (st : DedupState) (item : SpecItem) : DedupState :=
  if item.id ∈ st.seen then
    if item.sourceType = some "definition" then
      { st with dups := bumpDup st.dups item.id }
    else st
  else { st with seen := item.id :: st.seen, dedup := st.dedup ++ [item] }

/-- The whole de-duplication pass of `main` over `all_items`. -/
def runDedup (items : List SpecItem) : DedupState :=
  items.foldl dedupStep ⟨[], [], []⟩

/-! ### generate-traceability-report.py -/

/-- Python `needle in hay` for strings (substring test). -/
def listSubOf (n : List Char) : List Char → Bool
  | [] => n.isEmpty
  | c :: t => n.isPrefixOf (c :: t) || listSubOf n t

def strIn (needle hay : String) : Bool := listSubOf needle.toList hay.toList

/-- The separator class of `re.split(r'[_\-]+', name)`. -/
def isSep (c : Char) : Bool := c == '_' || c == '-'

/-- `re.split(r'[_\-]+', name)`: pieces between maximal separator runs, with empty
pieces at the ends when the string starts/ends with a separator. -/
def splitSepsAux : Nat → List Char → List Char → List String
  | 0, _, cur => [String.mk cur.reverse]
  | _ + 1, [], cur => [String.mk cur.reverse]
  | fuel + 1, c :: rest, cur =>
    if isSep c then
      String.mk cur.reverse :: splitSepsAux fuel (rest.dropWhile isSep) []
    else splitSepsAux fuel rest (c :: cur)

def splitSeps (s : String) : List String :=
  splitSepsAux (s.toList.length + 1) s.toList []

/-- The discriminating key of the token heuristic (report lines 277-279): tokens
longer than 3 characters from splitting on `[_\-]+`, the longest one (first on
ties, as Python `max`), or the whole name when no token qualifies. -/
def heurKey (name : String) : String :=
  match (splitSeps name).filter (fun t => t.length > 3) with
  | [] => name
  | h :: t => t.foldl (fun best x => if x.length > best.length then x else best) h

inductive Outcome where
  | passed
  | failed
  | unresolved
deriving DecidableEq, Repr

/-- The `Requirement` class.  `passing_tests`/`failing_tests` are Python sets,
`test_cases` a list. -/
structure Requirement where
  req_id : String
  title : String
  priority : String
  acceptance_criteria : List String
  test_cases : List String
  passing_tests : Finset String
  failing_tests : Finset String
deriving DecidableEq

/-- `Requirement.coverage` (Python float arithmetic modelled in `ℚ`). -/
def coverage (r : Requirement) : ℚ :=
  if r.test_cases = [] then 0
  else ((r.passing_tests.card : ℚ) / (r.test_cases.length : ℚ)) * 100

/-- Python `str.split(sep)` for a non-empty separator: non-overlapping
left-to-right splits. -/
def pySplitAux (sep : List Char) : Nat → List Char → List Char → List String
  | 0, _, cur => [String.mk cur.reverse]
  | _ + 1, [], cur => [String.mk cur.reverse]
  | fuel + 1, c :: rest, cur =>
    match dropLit? sep (c :: rest) with
    | some r => String.mk cur.reverse :: pySplitAux sep fuel r []
    | none => pySplitAux sep fuel rest (c :: cur)

/-- `test_id.split('::')[-1]` (the split of a string is never empty, so the
default is never used). -/
def shortName (test_id : String) : String :=
  (pySplitAux [':', ':'] (test_id.toList.length + 1) test_id.toList []).getLastD
    test_id

/-- Lines 271-286 of the report script: direct substring match against each side,
then the token heuristic; the final `if test_passed: … elif test_failed: …`
dispatch makes the outcome three-valued (a direct match on both sides counts
as passed). -/
def resolveOutcome (name : String) (P F : Finset String) : Outcome :=
  if ∃ t ∈ P, strIn name t then .passed
  else if ∃ t ∈ F, strIn name t then .failed
  else
    let key := heurKey name
    let cp := P.filter (fun t => strIn key t)
    let cf := F.filter (fun t => strIn key t)
    if cp.card = 1 ∧ cf.card = 0 then .passed
    else if cf.card = 1 ∧ cp.card = 0 then .failed
    else .unresolved

/-- Lines 291-296: append to `test_cases`, add to exactly one of the two sets
according to the resolved outcome (or to neither). -/
def applyOutcome (tid : String) (oc : Outcome) (r : Requirement) : Requirement :=
  { r with
    test_cases := r.test_cases ++ [tid]
    passing_tests := if oc = .passed then insert tid r.passing_tests else r.passing_tests
    failing_tests := if oc = .failed then insert tid r.failing_tests else r.failing_tests }

/-- The `requirements` dict. -/
abbrev ReqMap := String → Option Requirement

/-- Body of the `for req_id in req_ids` loop: `if req_id in requirements` guards the
update. -/
def linkReq (tid : String) (oc : Outcome) (m : ReqMap) (rid : String) : ReqMap :=
  match m rid with
  | none => m
  | some r => fun id => if id = rid then some (applyOutcome tid oc r) else m id

/-- Body of the outer `for test_id, req_ids in test_to_requirements.items()` loop. -/
def linkTest (P F : Finset String) (m : ReqMap) : String × List String → ReqMap
  | (tid, rids) =>
    rids.foldl (linkReq tid (resolveOutcome (shortName tid) P F)) m

/-- `link_tests_to_requirements` (the annotation dict as an ordered association
list of `(test_id, req_ids)` pairs). -/
def link_tests_to_requirements (m : ReqMap) (annots : List (String × List String))
    (P F : Finset String) : ReqMap :=
  annots.foldl (linkTest P F) m

/-- One `<Test>` element of a successfully parsed CTest XML document:
`name`/`status` are `none` when the `<Name>`/`<Status>` child is absent
(the element's text is modelled as the string itself). -/
structure XmlTest where
  name : Option String
  status : Option String
deriving DecidableEq, Repr

/-- Loop body of the XML branch of `parse_ctest_results` (lines 206-217): status
`'passed'` goes to the passing set, anything else to the failing set; elements
missing a name or status are skipped. -/
def xmlStep (pf : Finset String × Finset String) (t : XmlTest) :
    Finset String × Finset String :=
  match t.name, t.status with
  | some n, some s =>
    if s = "passed" then (insert n pf.1, pf.2) else (pf.1, insert n pf.2)
  | _, _ => pf

/-- The XML branch of `parse_ctest_results`. -/
def parseXmlTests (tests : List XmlTest) : Finset String × Finset String :=
  tests.foldl xmlStep (∅, ∅)

/-- One attempt of the legacy pattern
`Test\s+#\d+:\s+(\S+)\s+\.+\s+(Passed|Failed|\*\*\*Failed)` at the current
position (alternatives in the regex's order); returns the two captures and the
rest of the input. -/
def legacyAt (cs : List Char) : Option ((String × String) × List Char) := do
  let r1 ← dropLit? ['T','e','s','t'] cs
  let (_, r2) ← take1? pyIsSpace r1
  let r3 ← dropLit? ['#'] r2
  let (_, r4) ← take1? pyIsDigit r3
  let r5 ← dropLit? [':'] r4
  let (_, r6) ← take1? pyIsSpace r5
  let (nm, r7) ← take1? (fun c => !pyIsSpace c) r6
  let (_, r8) ← take1? pyIsSpace r7
  let (_, r9) ← take1? (· == '.') r8
  let (_, r10) ← take1? pyIsSpace r9
  match dropLit? ['P','a','s','s','e','d'] r10 with
  | some r11 => some ((String.mk nm, "Passed"), r11)
  | none =>
    match dropLit? ['F','a','i','l','e','d'] r10 with
    | some r11 => some ((String.mk nm, "Failed"), r11)
    | none =>
      match dropLit? ['*','*','*','F','a','i','l','e','d'] r10 with
      | some r11 => some ((String.mk nm, "***Failed"), r11)
      | none => none

/-- `legacy_pattern.finditer`: left-to-right non-overlapping scan. -/
def legacyScanAux : Nat → List Char → List (String × String)
  | 0, _ => []
  | _ + 1, [] => []
  | fuel + 1, c :: rest =>
    match legacyAt (c :: rest) with
    | some (m, rest') => m :: legacyScanAux fuel rest'
    | none => legacyScanAux fuel rest

/-- All matches of the legacy line format over the content (lines re-joined
with `\n`, as `finditer` runs over the whole text). -/
def legacyMatches (lines : List String) : List (String × String) :=
  let cs := (String.intercalate "\n" lines).toList
  legacyScanAux (cs.length + 1) cs

/-- The block-header lookahead `^\d+/\d+\s+Testing:` (also the negative lookahead
inside the block pattern); consumes through `Testing:`. -/
def headerLead? (cs : List Char) : Option (List Char) := do
  let (_, r1) ← take1? pyIsDigit cs
  let r2 ← dropLit? ['/'] r1
  let (_, r3) ← take1? pyIsDigit r2
  let (_, r4) ← take1? pyIsSpace r3
  dropLit? ['T','e','s','t','i','n','g',':'] r4

/-- A full block-header line `^(\d+)/(\d+)\s+Testing:\s+([^\r\n]+)` (the pattern's
trailing `\s*\n` is the line terminator in this line-structured model); returns
the captured raw name. -/
def headerMatch (line : String) : Option String :=
  match headerLead? line.toList with
  | none => none
  | some r =>
    match take1? pyIsSpace r with
    | none => none
    | some (_, rest) => if rest.isEmpty then none else some (String.mk rest)

/-- The block terminator line `^Test\s+(Passed|Failed)\.`. -/
def statusMatch (line : String) : Option String := do
  let r1 ← dropLit? ['T','e','s','t'] line.toList
  let (_, r2) ← take1? pyIsSpace r1
  match dropLit? ['P','a','s','s','e','d'] r2 with
  | some r3 => if r3.head? = some '.' then some "Passed" else none
  | none =>
    match dropLit? ['F','a','i','l','e','d'] r2 with
    | some r3 => if r3.head? = some '.' then some "Failed" else none
    | none => none

/-- `block_pattern.finditer` in the line-structured model: a header line opens a
pending block; the lazy `(?:(?!^\d+/\d+\s+Testing:).)*?` walks forward to the
first terminator line, aborting (and restarting) at the next header-lookahead
line; the captured name is stripped (`m.group(3).strip()`). -/
def blockScan : List String → Option String → List (String × String)
  | [], _ => []
  | l :: rest, pending =>
    match headerMatch l with
    | some n => blockScan rest (some n)
    | none =>
      if (headerLead? l.toList).isSome then blockScan rest none
      else
        match pending, statusMatch l with
        | some name, some st => (pyStrip name, st) :: blockScan rest none
        | _, _ => blockScan rest pending

def blockMatches (lines : List String) : List (String × String) :=
  blockScan lines none

/-- Loop body of the accumulation loops of the two text formats
(`if status == 'Passed'` adds to the passing set, anything else to the failing
set). -/
def resultsStep (pf : Finset String × Finset String) (m : String × String) :
    Finset String × Finset String :=
  if m.2 = "Passed" then (insert m.1 pf.1, pf.2) else (pf.1, insert m.1 pf.2)

/-- The accumulation loops of the two text formats. -/
def foldResults (ms : List (String × String)) : Finset String × Finset String :=
  ms.foldl resultsStep (∅, ∅)

/-- A results artifact as `parse_ctest_results` sees it: either `ET.parse`
succeeded (the `<Test>` elements in document order, plus the raw file lines —
realisable whenever the raw text is well-formed XML), or it raised
`ParseError` and the text formats run on the raw lines. -/
inductive Artifact where
  | xmlDoc (tests : List XmlTest) (lines : List String)
  | textLog (lines : List String)

/-- `parse_ctest_results`: the XML branch returns whatever it found (even nothing);
on `ParseError` the legacy line format runs, and the block format runs only when
the legacy format produced nothing (`if not passing and not failing`). -/
def parse_ctest_results : Artifact → Finset String × Finset String
  | .xmlDoc tests _ => parseXmlTests tests
  | .textLog lines =>
    let pf := foldResults (legacyMatches lines)
    if pf.1 = ∅ ∧ pf.2 = ∅ then foldResults (blockMatches lines) else pf

/-! ## Helper lemmas -/

lemma xml_mem_fst (n : String) (tests : List XmlTest) :
    ∀ pf : Finset String × Finset String,
      n ∈ (tests.foldl xmlStep pf).1 ↔
        n ∈ pf.1 ∨ ∃ t ∈ tests, t.name = some n ∧ t.status = some "passed" := by
  induction tests with
  | nil => simp
  | cons t ts ih =>
    intro pf
    rw [List.foldl_cons, ih]
    rcases ht : t.name with _ | nm <;> rcases hs : t.status with _ | s
    · simp [xmlStep, ht, hs]
    · simp [xmlStep, ht, hs]
    · simp [xmlStep, ht, hs]
    · by_cases hp : s = "passed"
      · subst hp
        simp [xmlStep, ht, hs, Finset.mem_insert]
        try tauto
      · simp [xmlStep, ht, hs, hp]
        try tauto

lemma xml_mem_snd (n : String) (tests : List XmlTest) :
    ∀ pf : Finset String × Finset String,
      n ∈ (tests.foldl xmlStep pf).2 ↔
        n ∈ pf.2 ∨ ∃ t ∈ tests, t.name = some n ∧ ∃ s, t.status = some s ∧ s ≠ "passed" := by
  induction tests with
  | nil => simp
  | cons t ts ih =>
    intro pf
    rw [List.foldl_cons, ih]
    rcases ht : t.name with _ | nm <;> rcases hs : t.status with _ | s
    · simp [xmlStep, ht, hs]
    · simp [xmlStep, ht, hs]
    · simp [xmlStep, ht, hs]
    · by_cases hp : s = "passed"
      · subst hp
        simp [xmlStep, ht, hs]
        try tauto
      · simp [xmlStep, ht, hs, hp, Finset.mem_insert]
        try tauto

lemma results_foldl_subset (ms : List (String × String)) :
    ∀ pf : Finset String × Finset String,
      pf.1 ⊆ (ms.foldl resultsStep pf).1 ∧ pf.2 ⊆ (ms.foldl resultsStep pf).2 := by
  induction ms with
  | nil => intro pf; exact ⟨subset_rfl, subset_rfl⟩
  | cons m ms ih =>
    intro pf
    rw [List.foldl_cons]
    refine ⟨subset_trans ?_ (ih (resultsStep pf m)).1,
            subset_trans ?_ (ih (resultsStep pf m)).2⟩
    · unfold resultsStep
      split
      · exact Finset.subset_insert _ _
      · exact subset_rfl
    · unfold resultsStep
      split
      · exact subset_rfl
      · exact Finset.subset_insert _ _

lemma foldResults_ne_empty (m : String × String) (ms : List (String × String)) :
    ¬((foldResults (m :: ms)).1 = ∅ ∧ (foldResults (m :: ms)).2 = ∅) := by
  rintro ⟨h1, h2⟩
  have hsub := results_foldl_subset ms (resultsStep (∅, ∅) m)
  by_cases hp : m.2 = "Passed"
  · have hm : m.1 ∈ (resultsStep (∅, ∅) m).1 := by simp [resultsStep, hp]
    have hin : m.1 ∈ (foldResults (m :: ms)).1 := by
      unfold foldResults
      rw [List.foldl_cons]
      exact hsub.1 hm
    rw [h1] at hin
    exact absurd hin (Finset.not_mem_empty _)
  · have hm : m.1 ∈ (resultsStep (∅, ∅) m).2 := by simp [resultsStep, hp]
    have hin : m.1 ∈ (foldResults (m :: ms)).2 := by
      unfold foldResults
      rw [List.foldl_cons]
      exact hsub.2 hm
    rw [h2] at hin
    exact absurd hin (Finset.not_mem_empty _)

lemma results_mem_fst (n : String) (ms : List (String × String)) :
    ∀ pf : Finset String × Finset String,
      n ∈ (ms.foldl resultsStep pf).1 ↔
        n ∈ pf.1 ∨ ∃ m ∈ ms, m.1 = n ∧ m.2 = "Passed" := by
  induction ms with
  | nil => simp
  | cons m ms ih =>
    intro pf
    rw [List.foldl_cons, ih]
    by_cases hp : m.2 = "Passed"
    · have hstep : (resultsStep pf m).1 = insert m.1 pf.1 := by
        simp [resultsStep, hp]
      rw [hstep]
      constructor
      · rintro (h | ⟨m', hm', h1, h2⟩)
        · rcases Finset.mem_insert.mp h with rfl | h3
          · exact Or.inr ⟨m, List.mem_cons_self _ _, rfl, hp⟩
          · exact Or.inl h3
        · exact Or.inr ⟨m', List.mem_cons_of_mem _ hm', h1, h2⟩
      · rintro (h | ⟨m', hm', h1, h2⟩)
        · exact Or.inl (Finset.mem_insert_of_mem h)
        · rcases List.mem_cons.mp hm' with rfl | hm2
          · exact Or.inl (by rw [← h1]; exact Finset.mem_insert_self _ _)
          · exact Or.inr ⟨m', hm2, h1, h2⟩
    · have hstep : (resultsStep pf m).1 = pf.1 := by
        simp [resultsStep, hp]
      rw [hstep]
      constructor
      · rintro (h | ⟨m', hm', h1, h2⟩)
        · exact Or.inl h
        · exact Or.inr ⟨m', List.mem_cons_of_mem _ hm', h1, h2⟩
      · rintro (h | ⟨m', hm', h1, h2⟩)
        · exact Or.inl h
        · rcases List.mem_cons.mp hm' with rfl | hm2
          · exact absurd h2 hp
          · exact Or.inr ⟨m', hm2, h1, h2⟩

lemma results_mem_snd (n : String) (ms : List (String × String)) :
    ∀ pf : Finset String × Finset String,
      n ∈ (ms.foldl resultsStep pf).2 ↔
        n ∈ pf.2 ∨ ∃ m ∈ ms, m.1 = n ∧ m.2 ≠ "Passed" := by
  induction ms with
  | nil => simp
  | cons m ms ih =>
    intro pf
    rw [List.foldl_cons, ih]
    by_cases hp : m.2 = "Passed"
    · have hstep : (resultsStep pf m).2 = pf.2 := by
        simp [resultsStep, hp]
      rw [hstep]
      constructor
      · rintro (h | ⟨m', hm', h1, h2⟩)
        · exact Or.inl h
        · exact Or.inr ⟨m', List.mem_cons_of_mem _ hm', h1, h2⟩
      · rintro (h | ⟨m', hm', h1, h2⟩)
        · exact Or.inl h
        · rcases List.mem_cons.mp hm' with rfl | hm2
          · exact absurd hp h2
          · exact Or.inr ⟨m', hm2, h1, h2⟩
    · have hstep : (resultsStep pf m).2 = insert m.1 pf.2 := by
        simp [resultsStep, hp]
      rw [hstep]
      constructor
      · rintro (h | ⟨m', hm', h1, h2⟩)
        · rcases Finset.mem_insert.mp h with rfl | h3
          · exact Or.inr ⟨m, List.mem_cons_self _ _, rfl, hp⟩
          · exact Or.inl h3
        · exact Or.inr ⟨m', List.mem_cons_of_mem _ hm', h1, h2⟩
      · rintro (h | ⟨m', hm', h1, h2⟩)
        · exact Or.inl (Finset.mem_insert_of_mem h)
        · rcases List.mem_cons.mp hm' with rfl | hm2
          · exact Or.inl (by rw [← h1]; exact Finset.mem_insert_self _ _)
          · exact Or.inr ⟨m', hm2, h1, h2⟩

lemma parse_textLog_legacy (lines : List String) (h : legacyMatches lines ≠ []) :
    parse_ctest_results (.textLog lines) = foldResults (legacyMatches lines) := by
  show (if (foldResults (legacyMatches lines)).1 = ∅ ∧
        (foldResults (legacyMatches lines)).2 = ∅
      then foldResults (blockMatches lines)
      else foldResults (legacyMatches lines)) = foldResults (legacyMatches lines)
  rcases hm : legacyMatches lines with _ | ⟨m, ms⟩
  · exact absurd hm h
  · rw [if_neg (foldResults_ne_empty m ms)]

lemma parse_textLog_block (lines : List String) (h : legacyMatches lines = []) :
    parse_ctest_results (.textLog lines) = foldResults (blockMatches lines) := by
  show (if (foldResults (legacyMatches lines)).1 = ∅ ∧
        (foldResults (legacyMatches lines)).2 = ∅
      then foldResults (blockMatches lines)
      else foldResults (legacyMatches lines)) = foldResults (blockMatches lines)
  rw [h]
  simp [foldResults]

lemma dedup_seen_mem (X : String) (items : List SpecItem) :
    ∀ st : DedupState, (X ∈ (items.foldl dedupStep st).seen ↔
      X ∈ st.seen ∨ ∃ i ∈ items, i.id = X) := by
  induction items with
  | nil => simp
  | cons it its ih =>
    intro st
    rw [List.foldl_cons, ih]
    by_cases hseen : it.id ∈ st.seen
    · have habs : it.id = X → X ∈ st.seen := fun h => h ▸ hseen
      by_cases hdef : it.sourceType = some "definition"
      · simp only [dedupStep, if_pos hseen, if_pos hdef]
        simp
        tauto
      · simp only [dedupStep, if_pos hseen, if_neg hdef]
        simp
        tauto
    · simp only [dedupStep, if_neg hseen]
      simp [List.mem_cons]
      constructor
      · rintro ((rfl | hx) | he)
        · exact Or.inr (Or.inl rfl)
        · exact Or.inl hx
        · exact Or.inr (Or.inr he)
      · rintro (hx | (rfl | he))
        · exact Or.inl (Or.inr hx)
        · exact Or.inl (Or.inl rfl)
        · exact Or.inr he

lemma dedup_entry_iff_seen (X : String) (items : List SpecItem) :
    ∀ st : DedupState, (X ∈ st.seen ↔ ∃ i ∈ st.dedup, i.id = X) →
      (X ∈ (items.foldl dedupStep st).seen ↔
        ∃ i ∈ (items.foldl dedupStep st).dedup, i.id = X) := by
  induction items with
  | nil => intro st h; exact h
  | cons it its ih =>
    intro st h
    rw [List.foldl_cons]
    apply ih
    by_cases hseen : it.id ∈ st.seen
    · by_cases hdef : it.sourceType = some "definition"
      · simpa only [dedupStep, if_pos hseen, if_pos hdef] using h
      · simpa only [dedupStep, if_pos hseen, if_neg hdef] using h
    · simp only [dedupStep, if_neg hseen]
      simp only [List.mem_cons, List.mem_append, List.mem_singleton,
        List.not_mem_nil, or_false]
      constructor
      · rintro (rfl | hx)
        · exact ⟨it, Or.inr rfl, rfl⟩
        · obtain ⟨i, hi, hiX⟩ := h.mp hx
          exact ⟨i, Or.inl hi, hiX⟩
      · rintro ⟨i, hi | rfl, hiX⟩
        · exact Or.inr (h.mpr ⟨i, hi, hiX⟩)
        · exact Or.inl hiX.symm

lemma bumpDup_mem (iid : String) :
    ∀ (d : List (String × Nat)) (p : String × Nat), p ∈ bumpDup d iid →
      p.1 = iid ∨ ∃ q ∈ d, q.1 = p.1 := by
  intro d
  induction d with
  | nil =>
    intro p hp
    simp [bumpDup] at hp
    exact Or.inl (by rw [hp])
  | cons hd rest ih =>
    obtain ⟨k, n⟩ := hd
    intro p hp
    by_cases hk : k = iid
    · simp only [bumpDup, if_pos hk] at hp
      rcases List.mem_cons.mp hp with rfl | hp2
      · exact Or.inl hk
      · exact Or.inr ⟨p, List.mem_cons_of_mem _ hp2, rfl⟩
    · simp only [bumpDup, if_neg hk] at hp
      rcases List.mem_cons.mp hp with rfl | hp2
      · exact Or.inr ⟨(k, n), List.mem_cons_self _ _, rfl⟩
      · rcases ih p hp2 with h1 | ⟨q, hq, hq1⟩
        · exact Or.inl h1
        · exact Or.inr ⟨q, List.mem_cons_of_mem _ hq, hq1⟩

lemma dedup_dups_no_def (X : String) (items : List SpecItem)
    (hnodef : ∀ i ∈ items, i.id = X → i.sourceType ≠ some "definition") :
    ∀ st : DedupState, (∀ p ∈ st.dups, p.1 ≠ X) →
      ∀ p ∈ (items.foldl dedupStep st).dups, p.1 ≠ X := by
  induction items with
  | nil => intro st h; exact h
  | cons it its ih =>
    intro st h
    rw [List.foldl_cons]
    apply ih (fun i hi => hnodef i (List.mem_cons_of_mem _ hi))
    intro p hp
    by_cases hseen : it.id ∈ st.seen
    · by_cases hdef : it.sourceType = some "definition"
      · have hne : it.id ≠ X := fun hX => (hnodef it (List.mem_cons_self _ _) hX) hdef
        simp only [dedupStep, if_pos hseen, if_pos hdef] at hp
        rcases bumpDup_mem it.id st.dups p hp with h1 | ⟨q, hq, hq1⟩
        · rw [h1]; exact hne
        · rw [← hq1]; exact h q hq
      · simp only [dedupStep, if_pos hseen, if_neg hdef] at hp
        exact h p hp
    · simp only [dedupStep, if_neg hseen] at hp
      exact h p hp

lemma addId_filter_primary (X stem lineCore : String) (headingId : Option String)
    (acc : List Item) (idx : Nat) (id_ : String) :
    (addId (some X) stem lineCore headingId acc idx id_).filter
        (fun i => i.id == X) =
      acc.filter (fun i => i.id == X) := by
  unfold addId
  by_cases hA : (some X : Option String) = some id_
  · rw [if_pos hA]
  · rw [if_neg hA]
    by_cases hB : acc.any (fun i => i.id == id_) = true
    · rw [if_pos hB]
    · rw [if_neg hB]
      have hne : id_ ≠ X := fun he => hA (by rw [he])
      rw [List.filter_append]
      simp [hne]

lemma foldl_addId_filter (X stem lineCore : String) (headingId : Option String) :
    ∀ (ps : List (Nat × String)) (acc : List Item),
      (ps.foldl (fun a p => addId (some X) stem lineCore headingId a p.1 p.2)
          acc).filter (fun i => i.id == X) =
        acc.filter (fun i => i.id == X) := by
  intro ps
  induction ps with
  | nil => intro acc; rfl
  | cons p ps ih =>
    intro acc
    rw [List.foldl_cons, ih, addId_filter_primary]

lemma processLine_filter (X stem : String) (acc : List Item) (line : String) :
    (processLine (some X) stem acc line).filter (fun i => i.id == X) =
      acc.filter (fun i => i.id == X) := by
  simp only [processLine]
  split
  · exact foldl_addId_filter X stem _ _ _ acc
  · rfl

lemma addId_nodup (primary : Option String) (stem lineCore : String)
    (headingId : Option String) (acc : List Item) (idx : Nat) (id_ : String)
    (h : (acc.map Item.id).Nodup) :
    ((addId primary stem lineCore headingId acc idx id_).map Item.id).Nodup := by
  unfold addId
  by_cases hA : primary = some id_
  · rw [if_pos hA]; exact h
  · rw [if_neg hA]
    by_cases hB : acc.any (fun i => i.id == id_) = true
    · rw [if_pos hB]; exact h
    · rw [if_neg hB]
      rw [List.map_append, List.map_cons, List.map_nil, List.nodup_append]
      refine ⟨h, List.nodup_singleton _, ?_⟩
      intro a ha hb
      rw [List.mem_singleton] at hb
      subst hb
      obtain ⟨i, hi, hieq⟩ := List.mem_map.mp ha
      exact hB (List.any_eq_true.mpr ⟨i, hi, by simp [hieq]⟩)

lemma foldl_addId_nodup (primary : Option String) (stem lineCore : String)
    (headingId : Option String) :
    ∀ (ps : List (Nat × String)) (acc : List Item), (acc.map Item.id).Nodup →
      ((ps.foldl (fun a p => addId primary stem lineCore headingId a p.1 p.2)
          acc).map Item.id).Nodup := by
  intro ps
  induction ps with
  | nil => intro acc h; exact h
  | cons p ps ih =>
    intro acc h
    rw [List.foldl_cons]
    exact ih _ (addId_nodup primary stem lineCore headingId acc p.1 p.2 h)

lemma processLine_nodup (primary : Option String) (stem : String)
    (acc : List Item) (line : String) (h : (acc.map Item.id).Nodup) :
    ((processLine primary stem acc line).map Item.id).Nodup := by
  simp only [processLine]
  split
  · exact foldl_addId_nodup primary stem _ _ _ acc h
  · exact h

lemma linkReq_pres (Φ : Requirement → Prop) (tid : String) (oc : Outcome)
    (hstep : ∀ r, Φ r → Φ (applyOutcome tid oc r))
    (m : ReqMap) (rid : String)
    (h : ∀ id r, m id = some r → Φ r) :
    ∀ id r, linkReq tid oc m rid id = some r → Φ r := by
  intro id r hr
  rcases hm : m rid with _ | r0
  · simp only [linkReq, hm] at hr
    exact h id r hr
  · simp only [linkReq, hm] at hr
    by_cases hid : id = rid
    · rw [if_pos hid] at hr
      injection hr with hr
      exact hr ▸ hstep r0 (h rid r0 hm)
    · rw [if_neg hid] at hr
      exact h id r hr

lemma linkRids_pres (Φ : Requirement → Prop) (tid : String) (oc : Outcome)
    (hstep : ∀ r, Φ r → Φ (applyOutcome tid oc r)) :
    ∀ (rids : List String) (m : ReqMap), (∀ id r, m id = some r → Φ r) →
      ∀ id r, (rids.foldl (linkReq tid oc) m) id = some r → Φ r := by
  intro rids
  induction rids with
  | nil => intro m h; exact h
  | cons rid rids ih =>
    intro m h
    rw [List.foldl_cons]
    exact ih _ (linkReq_pres Φ tid oc hstep m rid h)

lemma link_pres (P F : Finset String) (Φ : Requirement → Prop)
    (hstep : ∀ tid r, Φ r →
      Φ (applyOutcome tid (resolveOutcome (shortName tid) P F) r)) :
    ∀ (annots : List (String × List String)) (m : ReqMap),
      (∀ id r, m id = some r → Φ r) →
      ∀ id r, link_tests_to_requirements m annots P F id = some r → Φ r := by
  intro annots
  induction annots with
  | nil => intro m h; exact h
  | cons a as ih =>
    intro m h
    unfold link_tests_to_requirements
    rw [List.foldl_cons]
    obtain ⟨tid, rids⟩ := a
    exact ih _ (linkRids_pres Φ tid _ (hstep tid) rids m h)

lemma applyOutcome_sides (P F : Finset String) (tid : String) (r : Requirement)
    (h : (∀ t ∈ r.passing_tests, resolveOutcome (shortName t) P F = .passed) ∧
         (∀ t ∈ r.failing_tests, resolveOutcome (shortName t) P F = .failed)) :
    (∀ t ∈ (applyOutcome tid (resolveOutcome (shortName tid) P F) r).passing_tests,
        resolveOutcome (shortName t) P F = .passed) ∧
    (∀ t ∈ (applyOutcome tid (resolveOutcome (shortName tid) P F) r).failing_tests,
        resolveOutcome (shortName t) P F = .failed) := by
  constructor
  · intro t ht
    simp only [applyOutcome] at ht
    split at ht
    · rename_i hp
      rcases Finset.mem_insert.mp ht with rfl | ht2
      · exact hp
      · exact h.1 t ht2
    · exact h.1 t ht
  · intro t ht
    simp only [applyOutcome] at ht
    split at ht
    · rename_i hp
      rcases Finset.mem_insert.mp ht with rfl | ht2
      · exact hp
      · exact h.2 t ht2
    · exact h.2 t ht

lemma applyOutcome_card_le (tid : String) (oc : Outcome) (r : Requirement)
    (h : r.passing_tests.card ≤ r.test_cases.length) :
    (applyOutcome tid oc r).passing_tests.card ≤
      (applyOutcome tid oc r).test_cases.length := by
  have h1 := Finset.card_insert_le tid r.passing_tests
  simp only [applyOutcome, List.length_append, List.length_cons, List.length_nil]
  split
  · omega
  · omega

lemma coverage_iff_aux (r : Requirement)
    (hcard : r.passing_tests.card ≤ r.test_cases.length) :
    (coverage r = 0 ↔ r.passing_tests = ∅) ∧
    (coverage r = 100 ↔ r.passing_tests.card = r.test_cases.length ∧
      r.test_cases ≠ []) := by
  by_cases htc : r.test_cases = []
  · have hc0 : r.passing_tests.card = 0 := by
      rw [htc] at hcard
      simpa using hcard
    have hpe : r.passing_tests = ∅ := Finset.card_eq_zero.mp hc0
    constructor
    · simp [coverage, htc, hpe]
    · simp [coverage, htc]
  · have hlen : r.test_cases.length ≠ 0 := fun h => htc (List.length_eq_zero.mp h)
    have hlQ : ((r.test_cases.length : ℚ)) ≠ 0 := Nat.cast_ne_zero.mpr hlen
    have hcov : coverage r =
        ((r.passing_tests.card : ℚ) / (r.test_cases.length : ℚ)) * 100 := by
      unfold coverage
      rw [if_neg htc]
    constructor
    · rw [hcov]
      constructor
      · intro h
        rcases mul_eq_zero.mp h with h1 | h1
        · rcases div_eq_zero_iff.mp h1 with h2 | h2
          · exact Finset.card_eq_zero.mp (by exact_mod_cast h2)
          · exact absurd h2 hlQ
        · norm_num at h1
      · intro h
        rw [h]
        simp
    · rw [hcov]
      constructor
      · intro h
        refine ⟨?_, htc⟩
        have hqq : (r.passing_tests.card : ℚ) = (r.test_cases.length : ℚ) := by
          field_simp at h
          linarith
        exact_mod_cast hqq
      · rintro ⟨h, -⟩
        rw [h, div_self hlQ, one_mul]

/-! ## Claims -/

/-- C8: parsing a results log consisting of the block-format header line
`1/1 Testing: foo_test` followed by the line `Test Passed.` yields exactly
passing = {foo_test} and failing = {}. -/
theorem block_format_roundtrip :
    parse_ctest_results (.textLog ["1/1 Testing: foo_test", "Test Passed."]) =
      ({"foo_test"}, (∅ : Finset String)) := by decide

/-- C4 counterexample: a results artifact that records the same test name once
with status passed and once with another status puts the name in BOTH returned
sets — it does not belong to exactly one of them and there is no last-write-wins.
This fails identically for an XML report (two Test elements) and for a legacy
text log (two `Test #N:` lines with the same name and opposite outcomes). -/
theorem duplicate_name_in_both_sets :
    "foo" ∈ (parse_ctest_results (.xmlDoc
        [⟨some "foo", some "passed"⟩, ⟨some "foo", some "failed"⟩]
        ["<Site><Testing>",
         "<Test><Name>foo</Name><Status>passed</Status></Test>",
         "<Test><Name>foo</Name><Status>failed</Status></Test>",
         "</Testing></Site>"])).1 ∧
    "foo" ∈ (parse_ctest_results (.xmlDoc
        [⟨some "foo", some "passed"⟩, ⟨some "foo", some "failed"⟩]
        ["<Site><Testing>",
         "<Test><Name>foo</Name><Status>passed</Status></Test>",
         "<Test><Name>foo</Name><Status>failed</Status></Test>",
         "</Testing></Site>"])).2 ∧
    "foo" ∈ (parse_ctest_results (.textLog
        ["Test #1: foo .... Passed", "Test #2: foo .... Failed"])).1 ∧
    "foo" ∈ (parse_ctest_results (.textLog
        ["Test #1: foo .... Passed", "Test #2: foo .... Failed"])).2 := by
  decide

/-- C4 (amended): after parsing a results artifact — in each of the three
formats — a test name is in the passing set iff some record carries it with the
format's passing status, and in the failing set iff some record carries it with
a different status: for an XML artifact the records are its Test elements
(status passed); for a text log they are the legacy-format matches when there
are any, and otherwise the block-format matches (status Passed).  A name
recorded with both kinds of status is therefore in both sets — the adds
accumulate, there is no last-write-wins, and the two sets need not be
disjoint. -/
theorem parsed_name_membership :
    (∀ (tests : List XmlTest) (lines : List String) (n : String),
      (n ∈ (parse_ctest_results (.xmlDoc tests lines)).1 ↔
        ∃ t ∈ tests, t.name = some n ∧ t.status = some "passed") ∧
      (n ∈ (parse_ctest_results (.xmlDoc tests lines)).2 ↔
        ∃ t ∈ tests, t.name = some n ∧ ∃ s, t.status = some s ∧ s ≠ "passed")) ∧
    (∀ (lines : List String) (n : String), legacyMatches lines ≠ [] →
      ((n ∈ (parse_ctest_results (.textLog lines)).1 ↔
        ∃ m ∈ legacyMatches lines, m.1 = n ∧ m.2 = "Passed") ∧
       (n ∈ (parse_ctest_results (.textLog lines)).2 ↔
        ∃ m ∈ legacyMatches lines, m.1 = n ∧ m.2 ≠ "Passed"))) ∧
    (∀ (lines : List String) (n : String), legacyMatches lines = [] →
      ((n ∈ (parse_ctest_results (.textLog lines)).1 ↔
        ∃ m ∈ blockMatches lines, m.1 = n ∧ m.2 = "Passed") ∧
       (n ∈ (parse_ctest_results (.textLog lines)).2 ↔
        ∃ m ∈ blockMatches lines, m.1 = n ∧ m.2 ≠ "Passed"))) := by
  refine ⟨fun tests lines n => ?_, fun lines n h => ?_, fun lines n h => ?_⟩
  · show (n ∈ (parseXmlTests tests).1 ↔ _) ∧ (n ∈ (parseXmlTests tests).2 ↔ _)
    unfold parseXmlTests
    rw [xml_mem_fst, xml_mem_snd]
    simp
  · rw [parse_textLog_legacy lines h]
    unfold foldResults
    rw [results_mem_fst, results_mem_snd]
    simp
  · rw [parse_textLog_block lines h]
    unfold foldResults
    rw [results_mem_fst, results_mem_snd]
    simp

/-- Witness for the amended C4 theorem: the legacy branch at a two-line legacy
log and the block branch at the block-format log, with the hypotheses
discharged concretely. -/
theorem parsed_name_membership_witness :
    (legacyMatches ["Test #1: foo .... Passed", "Test #2: foo .... Failed"] ≠ [] ∧
      ("foo" ∈ (parse_ctest_results (.textLog
          ["Test #1: foo .... Passed", "Test #2: foo .... Failed"])).1 ↔
        ∃ m ∈ legacyMatches ["Test #1: foo .... Passed", "Test #2: foo .... Failed"],
          m.1 = "foo" ∧ m.2 = "Passed")) ∧
    (legacyMatches ["1/1 Testing: foo_test", "Test Passed."] = [] ∧
      ("foo_test" ∈ (parse_ctest_results (.textLog
          ["1/1 Testing: foo_test", "Test Passed."])).1 ↔
        ∃ m ∈ blockMatches ["1/1 Testing: foo_test", "Test Passed."],
          m.1 = "foo_test" ∧ m.2 = "Passed")) :=
  ⟨⟨by decide, (parsed_name_membership.2.1 _ "foo" (by decide)).1⟩,
   ⟨by decide, (parsed_name_membership.2.2 _ "foo_test" (by decide)).1⟩⟩

/-- C5 counterexample: a results file whose content is well-formed XML without any
Test element (here `<a>Test #1: foo .... Passed</a>`) makes the XML format yield
zero records, yet the parse returns empty sets instead of attempting the next
format on the same content — the legacy line format would have matched. -/
theorem xml_zero_records_is_final :
    parse_ctest_results (.xmlDoc [] ["<a>Test #1: foo .... Passed</a>"]) =
      ((∅ : Finset String), (∅ : Finset String)) ∧
    parse_ctest_results (.textLog ["<a>Test #1: foo .... Passed</a>"]) =
      ({"foo"}, (∅ : Finset String)) := by decide

/-- C5 (amended): only the two text formats follow the stop-at-first-yield rule —
the block format is attempted exactly when the legacy format yields no records;
the XML branch, once the artifact parses as XML, is final even when it yields
zero records. -/
theorem format_order_stop_rule :
    (∀ (tests : List XmlTest) (lines : List String),
      parse_ctest_results (.xmlDoc tests lines) = parseXmlTests tests) ∧
    (∀ lines : List String, legacyMatches lines = [] →
      parse_ctest_results (.textLog lines) = foldResults (blockMatches lines)) ∧
    (∀ lines : List String, legacyMatches lines ≠ [] →
      parse_ctest_results (.textLog lines) = foldResults (legacyMatches lines)) := by
  refine ⟨fun _ _ => rfl, fun lines h => ?_, fun lines h => ?_⟩
  · show (if (foldResults (legacyMatches lines)).1 = ∅ ∧
          (foldResults (legacyMatches lines)).2 = ∅
        then foldResults (blockMatches lines)
        else foldResults (legacyMatches lines)) = foldResults (blockMatches lines)
    rw [h]
    simp [foldResults]
  · show (if (foldResults (legacyMatches lines)).1 = ∅ ∧
          (foldResults (legacyMatches lines)).2 = ∅
        then foldResults (blockMatches lines)
        else foldResults (legacyMatches lines)) = foldResults (legacyMatches lines)
    rcases hm : legacyMatches lines with _ | ⟨m, ms⟩
    · exact absurd hm h
    · rw [if_neg (foldResults_ne_empty m ms)]

/-- Witness for the amended C5 theorem at concrete inputs: a block-only log (the
legacy format yields nothing, the block format is attempted) and a legacy-style
log (the legacy format yields a record and is final). -/
theorem format_order_stop_rule_witness :
    (legacyMatches ["1/1 Testing: foo_test", "Test Passed."] = [] ∧
      parse_ctest_results (.textLog ["1/1 Testing: foo_test", "Test Passed."]) =
        foldResults (blockMatches ["1/1 Testing: foo_test", "Test Passed."])) ∧
    (legacyMatches ["Test #1: foo .... Passed"] ≠ [] ∧
      parse_ctest_results (.textLog ["Test #1: foo .... Passed"]) =
        foldResults (legacyMatches ["Test #1: foo .... Passed"])) :=
  ⟨⟨by decide, format_order_stop_rule.2.1 _ (by decide)⟩,
   ⟨by decide, format_order_stop_rule.2.2 _ (by decide)⟩⟩

/-- C3 (code bug, evaluation at the failing input): for an identifier occurring as
one reference and then two definitions, the de-duplication keeps the reference
occurrence as the catalog entry (not the first definition) and reports the
identifier with count 3 in the duplicate-definition map — the claim (and the
script's own messages) call for the first definition as canonical and N-1 = 1
extra definitions. -/
theorem duplicate_definition_count_bug :
    runDedup [⟨"REQ-F-002", some "reference"⟩, ⟨"REQ-F-002", some "definition"⟩,
        ⟨"REQ-F-002", some "definition"⟩] =
      ⟨["REQ-F-002"], [⟨"REQ-F-002", some "reference"⟩], [("REQ-F-002", 3)]⟩ := by
  decide

/-- C1 counterexample: an identifier whose only occurrence in the corpus is a
reference (never a definition) still gets an entry in the deduplicated catalog —
the `items` list keeps the first occurrence regardless of its kind, so
references do create catalog entries on their own. -/
theorem reference_only_entry_in_catalog :
    (runDedup [⟨"REQ-F-001", some "reference"⟩]).dedup =
      [⟨"REQ-F-001", some "reference"⟩] ∧
    (⟨"REQ-F-001", some "reference"⟩ : SpecItem).sourceType ≠ some "definition" := by
  decide

/-- C1 (amended): the catalog has an entry for an identifier iff the identifier
occurs at all in the corpus — the first occurrence is kept whether it is a
definition or a reference; references never trigger conflicts on their own: an
identifier none of whose occurrences is a definition never appears in the
duplicate-definition report. -/
theorem catalog_entries_and_conflicts (items : List SpecItem) (X : String) :
    ((∃ i ∈ (runDedup items).dedup, i.id = X) ↔ ∃ i ∈ items, i.id = X) ∧
    ((∀ i ∈ items, i.id = X → i.sourceType ≠ some "definition") →
      ∀ p ∈ (runDedup items).dups, p.1 ≠ X) := by
  constructor
  · have h1 := dedup_entry_iff_seen X items ⟨[], [], []⟩ (by simp)
    have h2 := dedup_seen_mem X items ⟨[], [], []⟩
    unfold runDedup
    rw [← h1, h2]
    simp
  · intro hnodef
    exact dedup_dups_no_def X items hnodef ⟨[], [], []⟩ (by simp)

/-- Witness for the amended C1 theorem at a concrete reference-only corpus. -/
theorem catalog_entries_and_conflicts_witness :
    ((∃ i ∈ (runDedup [⟨"REQ-F-001", some "reference"⟩]).dedup, i.id = "REQ-F-001") ↔
      ∃ i ∈ [SpecItem.mk "REQ-F-001" (some "reference")], i.id = "REQ-F-001") ∧
    (∀ p ∈ (runDedup [⟨"REQ-F-001", some "reference"⟩]).dups, p.1 ≠ "REQ-F-001") :=
  ⟨(catalog_entries_and_conflicts _ _).1,
   (catalog_entries_and_conflicts _ _).2 (by decide)⟩

/-- C9: when a document's front-matter identifier field is X, parse_file emits
exactly one item with id X for that document — the front-matter definition item —
whatever else the document's lines contain; in particular a heading occurrence of
X in the same document is not double-counted as a second definition or as a
reference. -/
theorem frontmatter_heading_single_definition (fmTitle : Option String)
    (stem : String) (lines : List String) (X : String) :
    (parse_file (some X) fmTitle stem lines).filter (fun i => i.id == X) =
      [⟨X, fmTitle.getD stem, "definition"⟩] := by
  unfold parse_file
  have hfold : ∀ (ls : List String) (acc : List Item),
      (ls.foldl (processLine (some X) stem) acc).filter (fun i => i.id == X) =
        acc.filter (fun i => i.id == X) := by
    intro ls
    induction ls with
    | nil => intro acc; rfl
    | cons l ls ih =>
      intro acc
      rw [List.foldl_cons, ih, processLine_filter]
  rw [hfold]
  simp

/-- C10: within a single document parse_file emits at most one item per
identifier (the emitted ids are pairwise distinct, so later occurrences of an
already-emitted id are dropped), and the kept item is the first occurrence in
top-to-bottom line order: for a document where the id first appears on an
ordinary (reference) line and only later as a heading definition, the single
emitted item carries sourceType reference and the heading definition is not
recorded. -/
theorem parse_file_first_occurrence_kept :
    (∀ (primary fmTitle : Option String) (stem : String) (lines : List String),
      ((parse_file primary fmTitle stem lines).map Item.id).Nodup) ∧
    parse_file none none "doc"
        ["REQ-F-001 mentioned early", "### REQ-F-001: The Title"] =
      [⟨"REQ-F-001", "mentioned early", "reference"⟩] := by
  constructor
  · intro primary fmTitle stem lines
    unfold parse_file
    have hfold : ∀ (ls : List String) (acc : List Item), (acc.map Item.id).Nodup →
        ((ls.foldl (processLine primary stem) acc).map Item.id).Nodup := by
      intro ls
      induction ls with
      | nil => intro acc h; exact h
      | cons l ls ih =>
        intro acc h
        rw [List.foldl_cons]
        exact ih _ (processLine_nodup primary stem acc l h)
    apply hfold
    cases primary <;> simp
  · decide

/-- C7: after the linking stage completes on a fresh catalog (all passing/failing
sets empty, as built by the requirements parser), every requirement's passing
and failing sets are disjoint — for all annotation maps and result sets,
including when a test's short name substring-matches names in both result
sets (the if/elif dispatch then counts it as passing only). -/
theorem linked_sets_disjoint (annots : List (String × List String))
    (P F : Finset String) (m0 : ReqMap)
    (h0 : ∀ id r, m0 id = some r → r.passing_tests = ∅ ∧ r.failing_tests = ∅) :
    ∀ id r, link_tests_to_requirements m0 annots P F id = some r →
      Disjoint r.passing_tests r.failing_tests := by
  have key := link_pres P F
    (fun r => (∀ t ∈ r.passing_tests, resolveOutcome (shortName t) P F = .passed) ∧
              (∀ t ∈ r.failing_tests, resolveOutcome (shortName t) P F = .failed))
    (fun tid r h => applyOutcome_sides P F tid r h)
    annots m0
    (fun id r h => by
      obtain ⟨hp, hf⟩ := h0 id r h
      constructor
      · intro t ht
        rw [hp] at ht
        exact absurd ht (Finset.not_mem_empty _)
      · intro t ht
        rw [hf] at ht
        exact absurd ht (Finset.not_mem_empty _))
  intro id r hr
  obtain ⟨hp, hf⟩ := key id r hr
  rw [Finset.disjoint_left]
  intro t htp htf
  have h1 := hp t htp
  have h2 := hf t htf
  rw [h1] at h2
  exact Outcome.noConfusion h2

/-- Witness for C7: a concrete fresh catalog, one annotated test that matches a
passing result by direct substring; the linked requirement's sets are disjoint. -/
theorem linked_sets_disjoint_witness :
    link_tests_to_requirements
        (fun id => if id = "STR-1" then
          some ⟨"STR-1", "t", "P0", [], [], ∅, ∅⟩ else none)
        [("a.cpp::t_one", ["STR-1"])] {"t_one_suite"} ∅ "STR-1" =
      some ⟨"STR-1", "t", "P0", [], ["a.cpp::t_one"], {"a.cpp::t_one"}, ∅⟩ ∧
    Disjoint
      (Requirement.mk "STR-1" "t" "P0" [] ["a.cpp::t_one"]
        {"a.cpp::t_one"} ∅).passing_tests
      (Requirement.mk "STR-1" "t" "P0" [] ["a.cpp::t_one"]
        {"a.cpp::t_one"} ∅).failing_tests := by
  have h1 : link_tests_to_requirements
      (fun id => if id = "STR-1" then
        some ⟨"STR-1", "t", "P0", [], [], ∅, ∅⟩ else none)
      [("a.cpp::t_one", ["STR-1"])] {"t_one_suite"} ∅ "STR-1" =
      some ⟨"STR-1", "t", "P0", [], ["a.cpp::t_one"], {"a.cpp::t_one"}, ∅⟩ := by
    decide
  refine ⟨h1, linked_sets_disjoint _ _ _ _ ?_ "STR-1" _ h1⟩
  intro id r h
  by_cases hid : id = "STR-1"
  · subst hid
    have h' : some (⟨"STR-1", "t", "P0", [], [], ∅, ∅⟩ : Requirement) = some r := by
      simpa using h
    cases h'
    exact ⟨rfl, rfl⟩
  · simp [hid] at h

/-- C2 counterexample: a requirement with one linked but unresolved test (empty
result sets, so neither direct nor heuristic matching succeeds) ends with
nonempty test_cases, an empty failing set and coverage 0 — refuting both
directions of the claim: coverage 0 does not imply empty test_cases, and empty
failing with nonempty test_cases does not imply coverage 100. -/
theorem coverage_unresolved_test :
    link_tests_to_requirements
        (fun id => if id = "STR-1" then
          some ⟨"STR-1", "t", "P1", [], [], ∅, ∅⟩ else none)
        [("f.cpp::alpha_beta", ["STR-1"])] ∅ ∅ "STR-1" =
      some ⟨"STR-1", "t", "P1", [], ["f.cpp::alpha_beta"], ∅, ∅⟩ ∧
    coverage ⟨"STR-1", "t", "P1", [], ["f.cpp::alpha_beta"], ∅, ∅⟩ = 0 ∧
    (Requirement.mk "STR-1" "t" "P1" [] ["f.cpp::alpha_beta"] ∅ ∅).test_cases ≠ [] ∧
    (Requirement.mk "STR-1" "t" "P1" [] ["f.cpp::alpha_beta"] ∅ ∅).failing_tests = ∅ := by
  refine ⟨by decide, ?_, by simp, rfl⟩
  simp [coverage]

/-- C2 (amended): for every requirement produced by the linking stage from a
fresh catalog, coverage is 0 iff its passing set is empty (not iff test_cases is
empty — an unresolved test leaves coverage 0 with nonempty test_cases), and
coverage is 100 iff the passing count equals the test_cases count with
test_cases nonempty (an empty failing set alone is not sufficient). -/
theorem coverage_iff_amended (annots : List (String × List String))
    (P F : Finset String) (m0 : ReqMap)
    (h0 : ∀ id r, m0 id = some r → r.passing_tests = ∅) :
    ∀ id r, link_tests_to_requirements m0 annots P F id = some r →
      ((coverage r = 0 ↔ r.passing_tests = ∅) ∧
       (coverage r = 100 ↔ r.passing_tests.card = r.test_cases.length ∧
         r.test_cases ≠ [])) := by
  intro id r hr
  have hcard : r.passing_tests.card ≤ r.test_cases.length :=
    link_pres P F (fun r => r.passing_tests.card ≤ r.test_cases.length)
      (fun tid r h => applyOutcome_card_le tid _ r h)
      annots m0
      (fun id r h => by
        show r.passing_tests.card ≤ r.test_cases.length
        rw [h0 id r h]
        simp)
      id r hr
  exact coverage_iff_aux r hcard

/-- Witness for the amended C2 theorem at the concrete unresolved-test input. -/
theorem coverage_iff_amended_witness :
    (coverage ⟨"STR-1", "t", "P1", [], ["f.cpp::alpha_beta"], ∅, ∅⟩ = 0 ↔
      (Requirement.mk "STR-1" "t" "P1" [] ["f.cpp::alpha_beta"] ∅ ∅).passing_tests
        = ∅) ∧
    (coverage ⟨"STR-1", "t", "P1", [], ["f.cpp::alpha_beta"], ∅, ∅⟩ = 100 ↔
      (Requirement.mk "STR-1" "t" "P1" [] ["f.cpp::alpha_beta"] ∅ ∅).passing_tests.card
          = (Requirement.mk "STR-1" "t" "P1" [] ["f.cpp::alpha_beta"] ∅ ∅).test_cases.length ∧
        (Requirement.mk "STR-1" "t" "P1" [] ["f.cpp::alpha_beta"] ∅ ∅).test_cases ≠ []) := by
  have h1 : link_tests_to_requirements
      (fun id => if id = "STR-1" then
        some ⟨"STR-1", "t", "P1", [], [], ∅, ∅⟩ else none)
      [("f.cpp::alpha_beta", ["STR-1"])] ∅ ∅ "STR-1" =
      some ⟨"STR-1", "t", "P1", [], ["f.cpp::alpha_beta"], ∅, ∅⟩ := by
    decide
  refine coverage_iff_amended _ _ _ _ ?_ "STR-1" _ h1
  intro id r h
  by_cases hid : id = "STR-1"
  · subst hid
    have h' : some (⟨"STR-1", "t", "P1", [], [], ∅, ∅⟩ : Requirement) = some r := by
      simpa using h
    cases h'
    rfl
  · simp [hid] at h

/-- C6: when a short test name has no direct substring match on either side, the
heuristic key is the longest of its tokens longer than 3 characters, and a match
is accepted only with exactly one candidate on exactly one side — with two or
more passing candidates the test stays unresolved; concretely, for short name
bmca_select the key is select, both of {x_select_a, x_select_b} contain it,
and the linked requirement gets the test appended to test_cases while both its
passing and failing sets stay empty. -/
theorem token_heuristic_ambiguity :
    (∀ (P F : Finset String) (name : String),
      (¬∃ t ∈ P, strIn name t) → (¬∃ t ∈ F, strIn name t) →
      2 ≤ (P.filter (fun t => strIn (heurKey name) t)).card →
      resolveOutcome name P F = .unresolved) ∧
    heurKey "bmca_select" = "select" ∧
    link_tests_to_requirements
        (fun id => if id = "STR-2" then
          some ⟨"STR-2", "t", "P0", [], [], ∅, ∅⟩ else none)
        [("tests/test_bmca.cpp::bmca_select", ["STR-2"])]
        {"x_select_a", "x_select_b"} ∅ "STR-2" =
      some ⟨"STR-2", "t", "P0", [],
        ["tests/test_bmca.cpp::bmca_select"], ∅, ∅⟩ := by
  refine ⟨?_, by decide, by decide⟩
  intro P F name h1 h2 hcard
  simp only [resolveOutcome]
  rw [if_neg h1, if_neg h2]
  have hc1 : ¬((P.filter (fun t => strIn (heurKey name) t)).card = 1 ∧
      (F.filter (fun t => strIn (heurKey name) t)).card = 0) := by
    rintro ⟨hc, -⟩
    omega
  have hc2 : ¬((F.filter (fun t => strIn (heurKey name) t)).card = 1 ∧
      (P.filter (fun t => strIn (heurKey name) t)).card = 0) := by
    rintro ⟨-, hc⟩
    omega
  rw [if_neg hc1, if_neg hc2]

/-- Witness for C6 at the spec's ambiguity scenario. -/
theorem token_heuristic_ambiguity_witness :
    (¬∃ t ∈ ({"x_select_a", "x_select_b"} : Finset String), strIn "bmca_select" t) ∧
    (¬∃ t ∈ (∅ : Finset String), strIn "bmca_select" t) ∧
    2 ≤ (({"x_select_a", "x_select_b"} : Finset String).filter
      (fun t => strIn (heurKey "bmca_select") t)).card ∧
    resolveOutcome "bmca_select" {"x_select_a", "x_select_b"} ∅ = .unresolved :=
  ⟨by decide, by decide, by decide,
   token_heuristic_ambiguity.1 _ _ _ (by decide) (by decide) (by decide)⟩

end PTP
